import Mathlib

/-!
Verification of the extended-reduction MST engine (`extreduce_extmst.c`) for
Steiner tree problems: layered special-distance stores, layered MST stores,
bottleneck tracker and the rule-out engine.

Real-valued quantities (`SCIP_Real`) are embedded as rationals; vertices and
edges are natural numbers.  The epsilon comparison macros, the `FARAWAY`
sentinel, and the collaborator modules whose sources are not part of this
repository snapshot (the distance-data oracle, the DCMST kernel, the MLDISTS
and CSR-depot internals) are modelled from the specification, as noted on the
corresponding definitions.  Everything else is translated directly from
`extreduce_extmst.c`.
-/

namespace ExtMst

/-- Modelled from the spec: the fixed epsilon of the numeric comparison macros
(`EPSILON` of `portab.h`, not under `src/`); the spec prescribes comparison
"with absolute equality up to a fixed epsilon". -/
def EPS : ℚ := 1 / 1000000

/-- Modelled from the spec: the sentinel `FARAWAY` (of the missing graph
header), "a real value larger than any admissible cost". -/
def FARAWAY : ℚ := 10 ^ 15

/-- Modelled from the spec: the strict comparison macro `LT(a,b)`,
true iff `a` is smaller than `b` by more than `EPS`. -/
def LTe (a b : ℚ) : Bool := decide (a - b < -EPS)

/-- Modelled from the spec: the comparison macro `LE(a,b)`,
true iff `a` exceeds `b` by at most `EPS`. -/
def LEe (a b : ℚ) : Bool := decide (a - b ≤ EPS)

/-- Modelled from the spec: the comparison macro `EQ(a,b)`,
absolute equality up to `EPS`. -/
def EQe (a b : ℚ) : Bool := decide (|a - b| ≤ EPS)

/-- Modelled from the spec: the comparison macro `GE(a,b)`. -/
def GEe (a b : ℚ) : Bool := decide (a - b ≥ -EPS)

theorem LTe_imp_LEe {a b : ℚ} (h : LTe a b = true) : LEe a b = true := by
  simp only [LTe, decide_eq_true_eq] at h
  simp only [LEe, decide_eq_true_eq]
  have hEps : (0 : ℚ) < EPS := by norm_num [EPS]
  linarith

theorem LTe_EQe_incompatible {a b : ℚ} (h : LTe a b = true) : EQe a b = false := by
  simp only [LTe, decide_eq_true_eq] at h
  simp only [EQe, decide_eq_false_iff_not, not_le]
  have : b - a > EPS := by linarith
  calc EPS < b - a := this
    _ ≤ |a - b| := by rw [abs_sub_comm]; exact le_abs_self _

/-- The graph oracle consumed by the engine (§6): per-edge head/tail and cost,
head-adjacency lists, terminal flags and prizes, and the problem-variant flag
`isPc` (`graph_pc_isPc`). -/
structure STPGraph where
  head : ℕ → ℕ
  tail : ℕ → ℕ
  cost : ℕ → ℚ
  outEdges : ℕ → List ℕ
  term : ℕ → Bool
  prize : ℕ → ℚ
  isPc : Bool

/-- The extension-tree part of the shared `EXTDATA` state used by the
bottleneck tracker: root, parent pointers (`tree_parentNode`, `none` for -1),
parent edge costs (`tree_parentEdgeCost`), tree degrees (`tree_deg`) and the
vertex count `knots`, which bounds every walk up the tree. -/
structure ExtTree where
  root : ℕ
  parent : ℕ → Option ℕ
  parentEdgeCost : ℕ → ℚ
  deg : ℕ → ℕ
  knots : ℕ

/-- The `MAX` macro of the source, written as the source's conditional update
so that it evaluates by kernel reduction. -/
def rmax (a b : ℚ) : ℚ := if a < b then b else a

theorem rmax_eq_max (a b : ℚ) : rmax a b = max a b := by
  unfold rmax
  rcases lt_or_le a b with h | h
  · rw [if_pos h, max_eq_right h.le]
  · rw [if_neg (not_lt.mpr h), max_eq_left h]

/-- One accumulator step of the root-path walks of `extreduce_extmst.c`:
edge costs accumulate through degree-2 vertices (minus the prize of a
PC terminal there), any other degree resets the accumulator to the
parent-edge cost of the vertex. -/
def accumStep (g : STPGraph) (t : ExtTree) (blocal : ℚ) (v : ℕ) : ℚ :=
  if t.deg v = 2 then
    let x := blocal + t.parentEdgeCost v
    if g.isPc ∧ g.term v then x - g.prize v else x
  else
    t.parentEdgeCost v

/-- The loop of `bottleneckMarkRootPath`: walk from `child` through the
ancestors `cur`, maintaining running accumulator `blocal` and running maximum
`bn`, writing the running maximum into the bottleneck array at every ancestor. -/
def markAux (g : STPGraph) (t : ExtTree) :
    ℕ → ℕ → Option ℕ → ℚ → ℚ → (ℕ → ℚ) → (ℕ → ℚ)
  | 0, _, _, _, _, b => b
  | _ + 1, _, none, _, _, b => b
  | fuel + 1, child, some cur, bn, blocal, b =>
    let blocal' := accumStep g t blocal child
    let bn' := rmax bn blocal'
    markAux g t fuel cur (t.parent cur) bn' blocal' (Function.update b cur bn')

/-- `bottleneckMarkRootPath`: marks the bottleneck array on the path from
`vertex` up to the tree root. -/
def bottleneckMarkRootPath (g : STPGraph) (t : ExtTree) (vertex : ℕ)
    (b : ℕ → ℚ) : ℕ → ℚ :=
  if vertex = t.root then Function.update b vertex 0
  else markAux g t t.knots vertex (t.parent vertex) 0 0 b

/-- The loop of `bottleneckUnmarkRootPath`: reset the bottleneck entries of
all ancestors back to -1. -/
def unmarkAux (t : ExtTree) : ℕ → Option ℕ → (ℕ → ℚ) → (ℕ → ℚ)
  | 0, _, b => b
  | _ + 1, none, b => b
  | fuel + 1, some cur, b =>
    unmarkAux t fuel (t.parent cur) (Function.update b cur (-1))

/-- `bottleneckUnmarkRootPath`: unmarks the bottleneck array on the path from
`vertex` up to the tree root. -/
def bottleneckUnmarkRootPath (t : ExtTree) (vertex : ℕ) (b : ℕ → ℚ) : ℕ → ℚ :=
  let b' := if vertex = t.root then Function.update b vertex (-1) else b
  unmarkAux t t.knots (t.parent vertex) b'

/-- The chain of ancestors visited when walking up from `cur` with the given
fuel: exactly the vertices written by `markAux` and reset by `unmarkAux`. -/
def ancestorChain (t : ExtTree) : ℕ → Option ℕ → List ℕ
  | 0, _ => []
  | _ + 1, none => []
  | fuel + 1, some cur => cur :: ancestorChain t fuel (t.parent cur)

theorem markAux_not_mem_chain (g : STPGraph) (t : ExtTree) :
    ∀ (fuel : ℕ) (child : ℕ) (cur : Option ℕ) (bn blocal : ℚ) (b : ℕ → ℚ)
      (u : ℕ), u ∉ ancestorChain t fuel cur →
      markAux g t fuel child cur bn blocal b u = b u := by
  intro fuel
  induction fuel with
  | zero => intro child cur bn blocal b u _; rfl
  | succ n ih =>
    intro child cur bn blocal b u hu
    cases cur with
    | none => rfl
    | some c =>
      simp only [ancestorChain, List.mem_cons, not_or] at hu
      simp only [markAux]
      rw [ih _ _ _ _ _ _ hu.2, Function.update_noteq hu.1]

theorem unmarkAux_eq (t : ExtTree) :
    ∀ (fuel : ℕ) (cur : Option ℕ) (b : ℕ → ℚ) (u : ℕ),
      unmarkAux t fuel cur b u =
        if u ∈ ancestorChain t fuel cur then -1 else b u := by
  intro fuel
  induction fuel with
  | zero => intro cur b u; simp [unmarkAux, ancestorChain]
  | succ n ih =>
    intro cur b u
    cases cur with
    | none => simp [unmarkAux, ancestorChain]
    | some c =>
      simp only [unmarkAux, ancestorChain, List.mem_cons]
      rw [ih]
      by_cases hmem : u ∈ ancestorChain t n (t.parent c)
      · simp [hmem]
      · by_cases huc : u = c
        · simp [hmem, huc, Function.update]
        · simp [hmem, huc, Function.update_noteq huc]

/-- The loop of `bottleneckGetDist`: walk up from the unmarked vertex while the
bottleneck array is unset (`< -0.5`), accumulating exactly as the marking walk
does, and finish with the maximum of the running maximum and the marked entry
reached. -/
def getDistAux (g : STPGraph) (t : ExtTree) (b : ℕ → ℚ) :
    ℕ → ℕ → ℚ → ℚ → ℚ
  | 0, cur, bn, _ => rmax bn (b cur)
  | fuel + 1, cur, bn, blocal =>
    if b cur < -1/2 then
      let blocal' := accumStep g t blocal cur
      let bn' := rmax bn blocal'
      match t.parent cur with
      | none => rmax bn' (b cur)
      | some p => getDistAux g t b fuel p bn' blocal'
    else rmax bn (b cur)

/-- `bottleneckGetDist`: the tree bottleneck between the vertex whose root path
is marked in `b` and the unmarked vertex `vu`. -/
def bottleneckGetDist (g : STPGraph) (t : ExtTree) (b : ℕ → ℚ) (vu : ℕ) : ℚ :=
  if vu = t.root then rmax 0 (b vu)
  else getDistAux g t b t.knots vu 0 0

/-- Claim-side recurrence for `bottleneckMarkRootPath`, following the spec
wording: walking up from `start`, edge costs accumulate through degree-2 chain
vertices (with the prize of a prize-collecting terminal subtracted there), a
vertex of any other degree resets the running accumulator to its parent-edge
cost, and every ancestor receives the running maximum reached so far. -/
def markRootPathValues (g : STPGraph) (t : ExtTree) :
    ℕ → ℕ → Option ℕ → ℚ → ℚ → List (ℕ × ℚ)
  | 0, _, _, _, _ => []
  | _ + 1, _, none, _, _ => []
  | fuel + 1, child, some cur, bn, blocal =>
    let blocal' := accumStep g t blocal child
    let bn' := rmax bn blocal'
    (cur, bn') :: markRootPathValues g t fuel cur (t.parent cur) bn' blocal'

theorem markRootPathValues_fst (g : STPGraph) (t : ExtTree) :
    ∀ (fuel : ℕ) (child : ℕ) (cur : Option ℕ) (bn blocal : ℚ),
      (markRootPathValues g t fuel child cur bn blocal).map Prod.fst =
        ancestorChain t fuel cur := by
  intro fuel
  induction fuel with
  | zero => intro child cur bn blocal; rfl
  | succ n ih =>
    intro child cur bn blocal
    cases cur with
    | none => rfl
    | some c => simp [markRootPathValues, ancestorChain, ih]

theorem markAux_values (g : STPGraph) (t : ExtTree) :
    ∀ (fuel : ℕ) (child : ℕ) (cur : Option ℕ) (bn blocal : ℚ) (b : ℕ → ℚ),
      (ancestorChain t fuel cur).Nodup →
      ∀ p ∈ markRootPathValues g t fuel child cur bn blocal,
        markAux g t fuel child cur bn blocal b p.1 = p.2 := by
  intro fuel
  induction fuel with
  | zero => intro child cur bn blocal b _ p hp; cases hp
  | succ n ih =>
    intro child cur bn blocal b hnd p hp
    cases cur with
    | none => cases hp
    | some c =>
      simp only [ancestorChain, List.nodup_cons] at hnd
      simp only [markRootPathValues, List.mem_cons] at hp
      rcases hp with hp | hp
      · subst hp
        simp only [markAux]
        rw [markAux_not_mem_chain g t n c (t.parent c) _ _ _ _ hnd.1]
        simp [Function.update]
      · simpa only [markAux] using
          ih c (t.parent c) _ _ (Function.update b c _) hnd.2 p hp

/-- The prize-collecting example graph of the spec: path `0 - t - 2` with
`t = 1` a non-leaf terminal of prize `0.4` and both edge costs `1.0`. -/
def pcPathGraph : STPGraph where
  head := fun _ => 0
  tail := fun _ => 0
  cost := fun _ => 0
  outEdges := fun _ => []
  term := fun v => v = 1
  prize := fun v => if v = 1 then 2/5 else 0
  isPc := true

/-- The extension tree of the prize-collecting example: root `0`,
`parent 1 = 0`, `parent 2 = 1`, both parent edges of cost `1.0`, with `t = 1`
the only degree-2 vertex. -/
def pcPathTree : ExtTree where
  root := 0
  parent := fun v => if v = 1 then some 0 else if v = 2 then some 1 else none
  parentEdgeCost := fun v => if v = 1 ∨ v = 2 then 1 else 0
  deg := fun v => if v = 1 then 2 else if v ≤ 2 then 1 else 0
  knots := 3

/-- **C3.** `bottleneckMarkRootPath(start)` writes, at every proper ancestor of
`start` (walking up to the root along distinct vertices), the running maximum of
an accumulator that adds edge costs through degree-2 chain vertices (minus the
prize of a prize-collecting terminal there) and resets to the parent-edge cost
at any other degree; and on the spec's prize-collecting path `0-t-2` with edge
costs `1.0, 1.0` and prize `0.4` at `t`, marking from `2` sets the bottleneck
past `t` at the root to exactly `max(1.0, 1.0 + 1.0 - 0.4) = 1.6 = 8/5`. -/
theorem mark_root_path_accumulates (g : STPGraph) (t : ExtTree) (start : ℕ)
    (b : ℕ → ℚ) (hstart : start ≠ t.root)
    (hnd : (ancestorChain t t.knots (t.parent start)).Nodup) :
    (∀ p ∈ markRootPathValues g t t.knots start (t.parent start) 0 0,
        bottleneckMarkRootPath g t start b p.1 = p.2) ∧
      bottleneckMarkRootPath pcPathGraph pcPathTree 2 (fun _ => -1) 0 = 8/5 := by
  constructor
  · intro p hp
    unfold bottleneckMarkRootPath
    rw [if_neg hstart]
    exact markAux_values g t t.knots start (t.parent start) 0 0 b hnd p hp
  · norm_num [bottleneckMarkRootPath, pcPathTree, pcPathGraph, markAux, accumStep, rmax,
      Function.update]

/-- **C3 witness.** The general statement applied at the prize-collecting path
example, whose ancestor chain `[1, 0]` is duplicate free: marking from `2`
sets the bottleneck at the root to exactly `8/5 = 1.6`. -/
theorem mark_root_path_accumulates_witness :
    bottleneckMarkRootPath pcPathGraph pcPathTree 2 (fun _ => -1) 0 = 8/5 :=
  (mark_root_path_accumulates pcPathGraph pcPathTree 2 (fun _ => -1)
    (by decide) (by decide)).2

/-- **C7.** Marking the root path from any tree vertex and then unmarking it
leaves an unmarked bottleneck array (all entries `-1`) exactly as it was:
every ancestor entry is restored to `-1` and every other entry is untouched. -/
theorem mark_unmark_root_path_roundtrip (g : STPGraph) (t : ExtTree) (v : ℕ)
    (b : ℕ → ℚ) (hb : ∀ u, b u = -1) (u : ℕ) :
    bottleneckUnmarkRootPath t v (bottleneckMarkRootPath g t v b) u = b u := by
  unfold bottleneckUnmarkRootPath
  rw [unmarkAux_eq]
  by_cases hmem : u ∈ ancestorChain t t.knots (t.parent v)
  · rw [if_pos hmem, hb u]
  · rw [if_neg hmem]
    unfold bottleneckMarkRootPath
    by_cases hroot : v = t.root
    · rw [if_pos hroot, if_pos hroot]
      by_cases huv : u = v
      · subst huv; simp [Function.update, hb u]
      · rw [Function.update_noteq huv, Function.update_noteq huv]
    · rw [if_neg hroot, if_neg hroot]
      exact markAux_not_mem_chain g t t.knots v (t.parent v) 0 0 b u hmem

/-- **C7 witness.** The round trip on the concrete path tree with the all `-1`
array, evaluated at the root (which the marking pass had set to `8/5`). -/
theorem mark_unmark_root_path_roundtrip_witness :
    bottleneckUnmarkRootPath pcPathTree 2
        (bottleneckMarkRootPath pcPathGraph pcPathTree 2 (fun _ => -1)) 0 =
      -1 :=
  mark_unmark_root_path_roundtrip pcPathGraph pcPathTree 2 (fun _ => -1)
    (fun _ => rfl) 0

/-- `sdIsNonTrivial`: is the given special distance known (`≥ -0.5`, i.e. not
the `-1` unknown sentinel)? -/
def sdIsNonTrivial (specialDist : ℚ) : Bool := decide (specialDist ≥ -(1/2))

/-- `bottleneckIsEqualityDominated`: the equality sub-check, asking the
distance oracle for an SD that avoids the forbidden edge; an unknown answer
(`< -0.5`) never dominates, otherwise equality within `EPS` does.  The oracle
`sdEqF` stands for `extreduce_distDataGetSdDoubleForbiddenEq` of the
distance-data module, which is not part of this snapshot (§6). -/
def bottleneckIsEqualityDominated (sdEqF : ℚ → ℕ → ℕ → ℕ → ℚ)
    (dist_eq : ℚ) (edge_forbidden v1 v2 : ℕ) : Bool :=
  let sd_eq := sdEqF dist_eq edge_forbidden v1 v2
  if sd_eq < -(1/2) then false
  else LEe sd_eq dist_eq

/-- `bottleneckIsDominated`: does a special distance dominate the tree
bottleneck between `vm` (whose root path is marked in `b`) and `vu`?  Strict
domination rules out; equality within `EPS` defers to the equality sub-check.
The recording of forbidden equality edges (`bottleneckMarkEqualityEdges`) is a
side effect on separate state, modelled by the marking operations below. -/
def bottleneckIsDominated (g : STPGraph) (t : ExtTree) (b : ℕ → ℚ)
    (sdEqF : ℚ → ℕ → ℕ → ℕ → ℚ) (vm vu : ℕ) (specialDist : ℚ)
    (edge_forbidden : ℕ) : Bool :=
  if ¬ sdIsNonTrivial specialDist ∨ vm = vu then false
  else
    let bneck := bottleneckGetDist g t b vu
    if LTe specialDist bneck then true
    else if LEe specialDist bneck then
      bottleneckIsEqualityDominated sdEqF specialDist edge_forbidden vm vu
    else false

/-- `bottleneckWithExtedgeIsDominated`: like `bottleneckIsDominated`, but first
compares the special distance against the cost of the extension edge itself. -/
def bottleneckWithExtedgeIsDominated (g : STPGraph) (t : ExtTree) (b : ℕ → ℚ)
    (sdEqF : ℚ → ℕ → ℕ → ℕ → ℚ) (extedge vm vu : ℕ) (sd : ℚ) : Bool :=
  if ¬ sdIsNonTrivial sd then false
  else if LTe sd (g.cost extedge) then true
  else if LEe sd (g.cost extedge) ∧
      bottleneckIsEqualityDominated sdEqF sd extedge (g.head extedge) vu then
    true
  else if vm = vu then false
  else
    let bneck := bottleneckGetDist g t b vu
    if LTe sd bneck then true
    else if LEe sd bneck ∧
        bottleneckIsEqualityDominated sdEqF sd extedge (g.head extedge) vu then
      true
    else false

/-- `bottleneckToSiblingIsDominated`: the sibling dominance test, comparing the
special distance against the two extension edge costs; here `FARAWAY` encodes
an unknown special distance. -/
def bottleneckToSiblingIsDominated (g : STPGraph)
    (sdEqF : ℚ → ℕ → ℕ → ℕ → ℚ) (extedge edge2sibling : ℕ) (sd : ℚ) : Bool :=
  if ¬ LTe sd FARAWAY then false
  else if LTe sd (g.cost edge2sibling) then true
  else if LTe sd (g.cost extedge) then true
  else if LEe sd (g.cost edge2sibling) ∧
      bottleneckIsEqualityDominated sdEqF sd edge2sibling
        (g.head edge2sibling) (g.head extedge) then
    true
  else if LEe sd (g.cost extedge) ∧
      bottleneckIsEqualityDominated sdEqF sd extedge
        (g.head edge2sibling) (g.head extedge) then
    true
  else false

/-- `mstCompLeafGetSDsToAncestors`: copies the stored vertical SDs of the top
leaf and, only when the leaf has no siblings or the initial component is a
general star, marks the root path of the top leaf and runs the bottleneck
domination test against every ancestor leaf (with the stored `FARAWAY`
sentinel translated back to the `-1` unknown encoding); the loop stops at the
first rule-out.  Returns the early rule-out flag. -/
def mstCompLeafGetSDsToAncestors (g : STPGraph) (t : ExtTree)
    (sdEqF : ℚ → ℕ → ℕ → ℕ → ℚ) (b0 : ℕ → ℚ) (edge2leaf : ℕ)
    (leaves : List ℕ) (adjedgecosts : List ℚ)
    (hasSiblings isAtInitialGenStar : Bool) : Bool :=
  let topleaf := g.head edge2leaf
  if ¬ hasSiblings ∨ isAtInitialGenStar then
    let b := bottleneckMarkRootPath g t topleaf b0
    (List.zip leaves adjedgecosts).any fun p =>
      let specialDist := if EQe p.2 FARAWAY then -1 else p.2
      bottleneckIsDominated g t b sdEqF topleaf p.1 specialDist edge2leaf
  else false

theorem LTe_false_of_lt {a b : ℚ} (h : b < a - EPS) : LTe a b = false := by
  simp only [LTe, decide_eq_false_iff_not, not_lt]
  have hEps : (0 : ℚ) < EPS := by norm_num [EPS]
  linarith

theorem LEe_false_of_lt {a b : ℚ} (h : b < a - EPS) : LEe a b = false := by
  simp only [LEe, decide_eq_false_iff_not, not_le]
  linarith

/-- **C4 (amended).** Each dominance test returns "not dominated" on its own
unknown encoding: `-1` for the ancestor-leaf test `bottleneckIsDominated` and
the inner-node test `bottleneckWithExtedgeIsDominated`, and `FARAWAY` for the
sibling test `bottleneckToSiblingIsDominated`; moreover the former two also
return "not dominated" on `FARAWAY` whenever the compared bottleneck and edge
cost values lie below `FARAWAY - EPS`. -/
theorem ambiguous_sd_never_rules_out :
    (∀ (g : STPGraph) (t : ExtTree) (b : ℕ → ℚ)
        (sdEqF : ℚ → ℕ → ℕ → ℕ → ℚ) (vm vu ef : ℕ),
      bottleneckIsDominated g t b sdEqF vm vu (-1) ef = false) ∧
    (∀ (g : STPGraph) (t : ExtTree) (b : ℕ → ℚ)
        (sdEqF : ℚ → ℕ → ℕ → ℕ → ℚ) (extedge vm vu : ℕ),
      bottleneckWithExtedgeIsDominated g t b sdEqF extedge vm vu (-1) = false) ∧
    (∀ (g : STPGraph) (sdEqF : ℚ → ℕ → ℕ → ℕ → ℚ) (extedge e2s : ℕ),
      bottleneckToSiblingIsDominated g sdEqF extedge e2s FARAWAY = false) ∧
    (∀ (g : STPGraph) (t : ExtTree) (b : ℕ → ℚ)
        (sdEqF : ℚ → ℕ → ℕ → ℕ → ℚ) (vm vu ef : ℕ),
      bottleneckGetDist g t b vu < FARAWAY - EPS →
      bottleneckIsDominated g t b sdEqF vm vu FARAWAY ef = false) ∧
    (∀ (g : STPGraph) (t : ExtTree) (b : ℕ → ℚ)
        (sdEqF : ℚ → ℕ → ℕ → ℕ → ℚ) (extedge vm vu : ℕ),
      g.cost extedge < FARAWAY - EPS →
      bottleneckGetDist g t b vu < FARAWAY - EPS →
      bottleneckWithExtedgeIsDominated g t b sdEqF extedge vm vu FARAWAY
        = false) := by
  refine ⟨?_, ?_, ?_, ?_, ?_⟩
  · intro g t b sdEqF vm vu ef
    have h : sdIsNonTrivial (-1) = false := by
      simp only [sdIsNonTrivial, decide_eq_false_iff_not, not_le]; norm_num
    simp [bottleneckIsDominated, h]
  · intro g t b sdEqF extedge vm vu
    have h : sdIsNonTrivial (-1) = false := by
      simp only [sdIsNonTrivial, decide_eq_false_iff_not, not_le]; norm_num
    simp [bottleneckWithExtedgeIsDominated, h]
  · intro g sdEqF extedge e2s
    have h : LTe FARAWAY FARAWAY = false := by
      simp only [LTe, decide_eq_false_iff_not, not_lt]
      have : (0 : ℚ) < EPS := by norm_num [EPS]
      linarith
    simp [bottleneckToSiblingIsDominated, h]
  · intro g t b sdEqF vm vu ef hlt
    have hnt : sdIsNonTrivial FARAWAY = true := by
      simp only [sdIsNonTrivial, decide_eq_true_eq]; norm_num [FARAWAY]
    by_cases hvm : vm = vu
    · simp [bottleneckIsDominated, hvm]
    · simp [bottleneckIsDominated, hnt, hvm, LTe_false_of_lt hlt,
        LEe_false_of_lt hlt]
  · intro g t b sdEqF extedge vm vu hcost hlt
    have hnt : sdIsNonTrivial FARAWAY = true := by
      simp only [sdIsNonTrivial, decide_eq_true_eq]; norm_num [FARAWAY]
    by_cases hvm : vm = vu
    · simp [bottleneckWithExtedgeIsDominated, hnt, hvm, LTe_false_of_lt hcost,
        LEe_false_of_lt hcost]
    · simp [bottleneckWithExtedgeIsDominated, hnt, hvm, LTe_false_of_lt hcost,
        LEe_false_of_lt hcost, LTe_false_of_lt hlt, LEe_false_of_lt hlt]

/-- A one-component graph with unit edge costs, used as a concrete input to
the dominance tests. -/
def unitCostGraph : STPGraph where
  head := fun e => e
  tail := fun _ => 0
  cost := fun _ => 1
  outEdges := fun _ => []
  term := fun _ => false
  prize := fun _ => 0
  isPc := false

/-- **C4 counterexample.** The sibling dominance test fed the unknown special
distance `-1` (the encoding the claim names) reports *dominated*: with unit
edge costs, `LT(-1, 1)` holds and the test rules out, so an SD of `-1` does
not conservatively yield "no rule-out" in the sibling test. -/
theorem sibling_test_rules_out_on_unknown :
    bottleneckToSiblingIsDominated unitCostGraph (fun _ _ _ _ => -1) 0 1 (-1)
      = true := by
  norm_num [bottleneckToSiblingIsDominated, unitCostGraph, LTe, FARAWAY, EPS]

/-- **C4 witness.** The amended statement evaluated at concrete inputs:
`bottleneckIsDominated` on the `FARAWAY` sentinel with a marked bottleneck of
`0` (below `FARAWAY - EPS`) reports "not dominated". -/
theorem ambiguous_sd_never_rules_out_witness :
    bottleneckIsDominated pcPathGraph pcPathTree (fun _ => -1)
      (fun _ _ _ _ => -1) 1 0 FARAWAY 0 = false :=
  ambiguous_sd_never_rules_out.2.2.2.1 pcPathGraph pcPathTree (fun _ => -1)
    (fun _ _ _ _ => -1) 1 0 0
    (by norm_num [bottleneckGetDist, pcPathTree, rmax, FARAWAY, EPS])

/-- A graph for the ancestor-domination examples: every edge has head `2`,
tail `1` and cost `1`, with the terminal/prize data of the prize-collecting
path, so that marking from `2` in `pcPathTree` yields bottleneck `8/5` at the
root. -/
def ancestorGraph : STPGraph where
  head := fun _ => 2
  tail := fun _ => 1
  cost := fun _ => 1
  outEdges := fun _ => []
  term := fun v => v = 1
  prize := fun v => if v = 1 then 2/5 else 0
  isPc := true

/-- **C2 counterexample.** A candidate leaf `2` of the top component with a
sibling (and no initial general star): its ancestor leaf `0` stores the
vertical SD `1`, strictly below the bottleneck `8/5` along the (would-be)
marked root path from `2`, yet `mstCompLeafGetSDsToAncestors` performs no
bottleneck test at all and reports no rule-out. -/
theorem ancestor_domination_skipped_with_siblings :
    mstCompLeafGetSDsToAncestors ancestorGraph pcPathTree (fun _ _ _ _ => -1)
        (fun _ => -1) 0 [0] [1] true false = false ∧
      LTe 1 (bottleneckGetDist ancestorGraph pcPathTree
        (bottleneckMarkRootPath ancestorGraph pcPathTree 2 (fun _ => -1)) 0)
        = true := by
  constructor
  · simp [mstCompLeafGetSDsToAncestors]
  · norm_num [bottleneckGetDist, bottleneckMarkRootPath, markAux, accumStep,
      rmax, Function.update, pcPathTree, ancestorGraph, LTe, EPS]

/-- **C2 (amended).** Provided the candidate leaf has no siblings in the top
component or the initial component is a general star, a stored vertical SD
strictly below the bottleneck distance to the ancestor leaf (along the root
path marked from the candidate) forces the rule-out of the candidate; and in
any ancestor dominance test, equality of the SD with the bottleneck within
`EPS` makes the outcome exactly that of the equality rule-out sub-check. -/
theorem ancestor_domination_rules_out :
    (∀ (g : STPGraph) (t : ExtTree) (sdEqF : ℚ → ℕ → ℕ → ℕ → ℚ)
        (b0 : ℕ → ℚ) (edge2leaf : ℕ) (leaves : List ℕ) (adj : List ℚ)
        (hasSiblings genstar : Bool) (j : ℕ)
        (hj : j < leaves.length) (hj2 : j < adj.length),
      (hasSiblings = false ∨ genstar = true) →
      0 ≤ adj[j] → EQe adj[j] FARAWAY = false →
      g.head edge2leaf ≠ leaves[j] →
      LTe adj[j] (bottleneckGetDist g t
          (bottleneckMarkRootPath g t (g.head edge2leaf) b0) leaves[j])
        = true →
      mstCompLeafGetSDsToAncestors g t sdEqF b0 edge2leaf leaves adj
          hasSiblings genstar = true) ∧
    (∀ (g : STPGraph) (t : ExtTree) (b : ℕ → ℚ)
        (sdEqF : ℚ → ℕ → ℕ → ℕ → ℚ) (vm vu ef : ℕ) (sd : ℚ),
      sdIsNonTrivial sd = true → vm ≠ vu →
      LTe sd (bottleneckGetDist g t b vu) = false →
      LEe sd (bottleneckGetDist g t b vu) = true →
      bottleneckIsDominated g t b sdEqF vm vu sd ef =
        bottleneckIsEqualityDominated sdEqF sd ef vm vu) := by
  constructor
  · intro g t sdEqF b0 edge2leaf leaves adj hasSiblings genstar j hj hj2
      hrestrict hnn hFar hne hdom
    have hcond : ¬ (hasSiblings = true) ∨ genstar = true := by
      rcases hrestrict with h | h
      · left; simp [h]
      · right; exact h
    simp only [mstCompLeafGetSDsToAncestors]
    rw [if_pos (by simpa using hcond)]
    rw [List.any_eq_true]
    have hjz : j < (List.zip leaves adj).length := by
      simpa [List.length_zip] using lt_min hj hj2
    refine ⟨(leaves[j], adj[j]), ?_, ?_⟩
    · rw [List.mem_iff_getElem]
      exact ⟨j, hjz, List.getElem_zip⟩
    simp only [hFar, Bool.false_eq_true, if_false]
    have hnt : sdIsNonTrivial adj[j] = true := by
      simp only [sdIsNonTrivial, decide_eq_true_eq]
      linarith
    simp [bottleneckIsDominated, hnt, hne, hdom]
  · intro g t b sdEqF vm vu ef sd hnt hne hlt hle
    simp [bottleneckIsDominated, hnt, hne, hlt, hle]

/-- **C2 witness.** The amended statement on the concrete path tree: the same
leaf `2` without siblings is ruled out by its dominated ancestor SD. -/
theorem ancestor_domination_rules_out_witness :
    mstCompLeafGetSDsToAncestors ancestorGraph pcPathTree (fun _ _ _ _ => -1)
      (fun _ => -1) 0 [0] [1] false false = true :=
  ancestor_domination_rules_out.1 ancestorGraph pcPathTree (fun _ _ _ _ => -1)
    (fun _ => -1) 0 [0] [1] false false 0 (by norm_num) (by norm_num)
    (Or.inl rfl) (by norm_num) (by norm_num [EQe, FARAWAY, EPS])
    (by norm_num [ancestorGraph])
    (by norm_num [bottleneckGetDist, bottleneckMarkRootPath, markAux,
      accumStep, rmax, Function.update, pcPathTree, ancestorGraph, LTe, EPS])

/-- The equality-forbidden edge state of `EXTDATA`: the per-undirected-edge
flag array `sdeq_edgesIsForbidden` (indexed by `edge / 2`), the undo stack
`sdeq_resetStack`, and the summary flag `sdeq_hasForbiddenEdges`. -/
structure SdeqState where
  edgesIsForbidden : ℕ → Bool
  resetStack : List ℕ
  hasForbiddenEdges : Bool

/-- `bottleneckMarkEqualityEdge`: forbids a single equality edge; the
undirected id `edge / 2` is pushed on the reset stack exactly when its flag
flips from false to true, and the summary flag is set. -/
def bottleneckMarkEqualityEdge (edge : ℕ) (s : SdeqState) : SdeqState :=
  if ¬ s.edgesIsForbidden (edge / 2) then
    { edgesIsForbidden := Function.update s.edgesIsForbidden (edge / 2) true
      resetStack := s.resetStack ++ [edge / 2]
      hasForbiddenEdges := true }
  else s

/-- The loop of `bottleneckMarkEqualityPath`: walk from `cur` up to `pend`,
and at every step find the tree edge from the parent down to the current
vertex in the parent's out-edge list and forbid it; the per-edge body is
exactly the single-edge marking. -/
def markEqPathAux (g : STPGraph) (t : ExtTree) :
    ℕ → ℕ → ℕ → SdeqState → SdeqState
  | 0, _, _, s => s
  | fuel + 1, cur, pend, s =>
    if cur = pend then s
    else
      match t.parent cur with
      | none => s
      | some par =>
        let s' :=
          match (g.outEdges par).find? (fun e => g.head e = cur) with
          | none => s
          | some e => bottleneckMarkEqualityEdge e s
        markEqPathAux g t fuel par pend s'

/-- `bottleneckMarkEqualityPath`: forbids every tree edge on the path from
`path_start` up to `path_end`. -/
def bottleneckMarkEqualityPath (g : STPGraph) (t : ExtTree)
    (path_start path_end : ℕ) (s : SdeqState) : SdeqState :=
  markEqPathAux g t t.knots path_start path_end s

/-- The stack/flag coherence invariant of the equality-forbidden edge state:
the reset stack is duplicate free and every id on it has its flag set. -/
def SdeqInvariant (s : SdeqState) : Prop :=
  s.resetStack.Nodup ∧ ∀ i ∈ s.resetStack, s.edgesIsForbidden i = true

theorem sdeq_mark_edge_invariant (edge : ℕ) (s : SdeqState)
    (h : SdeqInvariant s) : SdeqInvariant (bottleneckMarkEqualityEdge edge s) := by
  unfold bottleneckMarkEqualityEdge
  by_cases hflag : s.edgesIsForbidden (edge / 2)
  · simp only [hflag, not_true_eq_false, if_false]
    exact h
  · simp only [hflag, Bool.false_eq_true, not_false_eq_true, if_true]
    have hnotmem : edge / 2 ∉ s.resetStack := fun hmem => by
      have := h.2 _ hmem
      rw [this] at hflag
      exact hflag rfl
    constructor
    · show (s.resetStack ++ [edge / 2]).Nodup
      exact List.Nodup.append h.1 (List.nodup_singleton _)
        (List.disjoint_singleton.mpr hnotmem)
    · intro i hi
      show Function.update s.edgesIsForbidden (edge / 2) true i = true
      rcases List.mem_append.mp hi with hi | hi
      · by_cases hid : i = edge / 2
        · subst hid; simp [Function.update]
        · rw [Function.update_noteq hid]
          exact h.2 _ hi
      · rw [List.mem_singleton.mp hi]
        simp [Function.update]

theorem sdeq_path_aux_invariant (g : STPGraph) (t : ExtTree) :
    ∀ (fuel cur pend : ℕ) (s : SdeqState), SdeqInvariant s →
      SdeqInvariant (markEqPathAux g t fuel cur pend s) := by
  intro fuel
  induction fuel with
  | zero => intro cur pend s h; exact h
  | succ n ih =>
    intro cur pend s h
    simp only [markEqPathAux]
    by_cases hcp : cur = pend
    · simp only [hcp, if_true]; exact h
    · rw [if_neg hcp]
      cases t.parent cur with
      | none => exact h
      | some par =>
        dsimp only
        cases hfind : (g.outEdges par).find? (fun e => g.head e = cur) with
        | none => exact ih par pend s h
        | some e => exact ih par pend _ (sdeq_mark_edge_invariant e s h)

/-- **C10.** Single-edge equality marking appends `edge / 2` to the reset
stack exactly when its forbidden flag flips from false to true, and then both
the flag and `sdeq_hasForbiddenEdges` are set; consequently both the
single-edge and the path marking operations preserve the coherence invariant:
no id appears twice on the reset stack and every id on the stack has its
forbidden flag set. -/
theorem equality_forbidden_marking_coherent :
    (∀ (edge : ℕ) (s : SdeqState),
      (bottleneckMarkEqualityEdge edge s).resetStack =
        s.resetStack ++
          (if s.edgesIsForbidden (edge / 2) then [] else [edge / 2]) ∧
      (s.edgesIsForbidden (edge / 2) = false →
        (bottleneckMarkEqualityEdge edge s).edgesIsForbidden (edge / 2)
            = true ∧
          (bottleneckMarkEqualityEdge edge s).hasForbiddenEdges = true) ∧
      (SdeqInvariant s → SdeqInvariant (bottleneckMarkEqualityEdge edge s))) ∧
    (∀ (g : STPGraph) (t : ExtTree) (pstart pend : ℕ) (s : SdeqState),
      SdeqInvariant s →
        SdeqInvariant (bottleneckMarkEqualityPath g t pstart pend s)) := by
  constructor
  · intro edge s
    refine ⟨?_, ?_, sdeq_mark_edge_invariant edge s⟩
    · unfold bottleneckMarkEqualityEdge
      by_cases hflag : s.edgesIsForbidden (edge / 2)
      · simp [hflag]
      · simp [hflag]
    · intro hflag
      unfold bottleneckMarkEqualityEdge
      simp [hflag, Function.update]
  · intro g t pstart pend s h
    exact sdeq_path_aux_invariant g t t.knots pstart pend s h

/-- **C10 witness.** The marking facts at a concrete edge and the empty
state: edge id `2` is appended with its flag freshly set, and the coherence
invariant holds afterwards. -/
theorem equality_forbidden_marking_coherent_witness :
    (bottleneckMarkEqualityEdge 4 ⟨fun _ => false, [], false⟩).resetStack =
        [2] ∧
      SdeqInvariant (bottleneckMarkEqualityEdge 4
        ⟨fun _ => false, [], false⟩) := by
  have h := equality_forbidden_marking_coherent.1 4 ⟨fun _ => false, [], false⟩
  refine ⟨?_, h.2.2 ⟨List.nodup_nil, by intro i hi; cases hi⟩⟩
  have h1 := h.1
  simpa using h1

/-- A compressed sparse row MST of the CSR depot (§4.B): node count, directed
edge entry count (`nedges_max`, two entries per undirected edge) and the
stored directed edge costs.  The depot internals (`graph_csrdepo_*`) are not
part of this snapshot; a depot is modelled as a stack of CSRs with its top at
the head of the list. -/
structure CSR where
  nnodes : ℕ
  nedges_max : ℕ
  cost : List ℚ

instance : Inhabited CSR := ⟨⟨1, 0, []⟩⟩

/-- Modelled from the spec: `get_weight(P)` of the DCMST kernel (§4.C), whose
source is not under `src/`: the weight of a stored MST; every undirected edge
is stored as two directed entries (§4.B), so the weight is half the total of
the stored costs. -/
def reduce_dcmstGetWeight (c : CSR) : ℚ := c.cost.sum / 2

/-- Modelled from the spec: `get_1node(out P)` of the DCMST kernel: the legal
one-node, zero-edge MST (§4.B). -/
def reduce_dcmstGet1NodeMst : CSR := ⟨1, 0, []⟩

/-- The extension-data fields consumed by the Stage 2 rule-out
(`mstCompRuleOut` and `mstEqComp3RuleOut`): tree cost, leaves, the
prize-collecting inner prize total, the equality-forbidden summary flag, the
initial-component shape flags, and the component MST depot. -/
structure MstCompState where
  tree_cost : ℚ
  tree_nleaves : ℕ
  tree_leaves : List ℕ
  tree_innerPrize : ℚ
  sdeq_hasForbiddenEdges : Bool
  initialCompIsStar : Bool
  initialCompIsEdge : Bool
  msts_comp : List CSR

/-- `mstEqComp3RuleOut`: can the current 3-leaf tree be ruled out in case of
equality?  Trivially yes for an initial component star or when no equality
edges are forbidden; otherwise the strict-forbidden SDs (oracle `sdF`,
standing for `extreduce_distDataGetSdDoubleForbidden` of the distance-data
module, §6) on the three leaf pairs must leave some two-pair sum within the
tree cost. -/
def mstEqComp3RuleOut (sdF : ℕ → ℕ → ℚ) (s : MstCompState)
    (tree_cost : ℚ) : Bool :=
  if s.initialCompIsStar ∨ ¬ s.sdeq_hasForbiddenEdges then true
  else
    let l0 := s.tree_leaves.getD 0 0
    let l1 := s.tree_leaves.getD 1 0
    let l2 := s.tree_leaves.getD 2 0
    let sds0 := sdF l0 l1
    let sds1 := sdF l0 l2
    if LEe (sds0 + sds1) tree_cost then true
    else
      let sds2 := sdF l1 l2
      if LEe (sds0 + sds2) tree_cost ∨ LEe (sds1 + sds2) tree_cost then true
      else false

/-- `mstCompRuleOut`: the Stage 2 MST objective rule-out on the top component
MST: rule out when the MST weight undercuts the tree cost (non-strictly when
the MST has more than two directed edge entries), except that a 3-leaf tree
with weight equal to the cost survives when the 3-leaf equality sub-check
fails.  The further branch of the source guarded by
`tree_nleaves == 3 && extInitialCompIsEdge(extdata) && 0` is disabled by its
`&& 0` and has no effect. -/
def mstCompRuleOut (isPc : Bool) (sdF : ℕ → ℕ → ℚ) (s : MstCompState) : Bool :=
  let tree_cost := if isPc then s.tree_cost - s.tree_innerPrize else s.tree_cost
  let topmst := s.msts_comp.headD default
  let mstweight := reduce_dcmstGetWeight topmst
  let ruledOut :=
    if topmst.nedges_max > 2 then LEe mstweight tree_cost
    else LTe mstweight tree_cost
  if ruledOut = true ∧ s.tree_nleaves = 3 ∧ EQe mstweight tree_cost = true ∧
      mstEqComp3RuleOut sdF s tree_cost = false then
    false
  else ruledOut

/-- The Stage 2 decision exactly as the claim words it: rule out iff
`w < c`, or the MST has more than two edges and `w ≤ c`, or there are three
leaves, `w = c` and the 3-leaf equality sub-check holds. -/
def mstCompRuleOutSpec (isPc : Bool) (sdF : ℕ → ℕ → ℚ)
    (s : MstCompState) : Bool :=
  let c := if isPc then s.tree_cost - s.tree_innerPrize else s.tree_cost
  let topmst := s.msts_comp.headD default
  let w := reduce_dcmstGetWeight topmst
  if LTe w c = true ∨ (topmst.nedges_max > 2 ∧ LEe w c = true) ∨
      (s.tree_nleaves = 3 ∧ EQe w c = true ∧
        mstEqComp3RuleOut sdF s c = true) then
    true
  else false

/-- The amended Stage 2 decision: rule out iff `w < c` or the MST has more
than two edges and `w ≤ c`, unless there are three leaves, `w = c` and the
3-leaf equality sub-check fails. -/
def mstCompRuleOutSpecAmended (isPc : Bool) (sdF : ℕ → ℕ → ℚ)
    (s : MstCompState) : Bool :=
  let c := if isPc then s.tree_cost - s.tree_innerPrize else s.tree_cost
  let topmst := s.msts_comp.headD default
  let w := reduce_dcmstGetWeight topmst
  if (LTe w c = true ∨ (topmst.nedges_max > 2 ∧ LEe w c = true)) ∧
      ¬ (s.tree_nleaves = 3 ∧ EQe w c = true ∧
        mstEqComp3RuleOut sdF s c = false) then
    true
  else false

theorem stage2_core_eq (m n : ℕ) (w c : ℚ) (e3 : Bool) :
    (if (if m > 2 then LEe w c else LTe w c) = true ∧ n = 3 ∧
        EQe w c = true ∧ e3 = false then
      false
     else (if m > 2 then LEe w c else LTe w c)) =
    (if (LTe w c = true ∨ (m > 2 ∧ LEe w c = true)) ∧
        ¬ (n = 3 ∧ EQe w c = true ∧ e3 = false) then
      true
     else false) := by
  by_cases h2 : m > 2 <;> by_cases hn : n = 3 <;>
    cases hlt : LTe w c <;> cases hle : LEe w c <;> cases heq : EQe w c <;>
      cases e3 <;>
        first
        | (have h1 := LTe_imp_LEe hlt
           have h2' := LTe_EQe_incompatible hlt
           simp_all)
        | simp_all

/-- A Stage 2 state with three leaves whose component MST weight equals the
tree cost while the 3-leaf equality sub-check fails: forbidden equality edges
are present, the initial component is not a star, and all strict-forbidden
SDs are `10`, so no two-pair sum stays within the tree cost `2`. -/
def stage2EqState : MstCompState where
  tree_cost := 2
  tree_nleaves := 3
  tree_leaves := [0, 1, 2]
  tree_innerPrize := 0
  sdeq_hasForbiddenEdges := true
  initialCompIsStar := false
  initialCompIsEdge := false
  msts_comp := [⟨3, 4, [1, 1, 1, 1]⟩]

/-- **C1 counterexample.** On `stage2EqState` the claim's rule ("more than two
edges and `w ≤ c`" rules out) says *ruled out*, but the code withdraws the
rule-out because the tree has three leaves, `w = c`, and the 3-leaf equality
sub-check fails: `mstCompRuleOut` returns false where the claimed decision
rule returns true. -/
theorem stage2_rule_out_equality_mismatch :
    mstCompRuleOut false (fun _ _ => 10) stage2EqState = false ∧
      mstCompRuleOutSpec false (fun _ _ => 10) stage2EqState = true := by
  constructor
  · norm_num [mstCompRuleOut, mstEqComp3RuleOut, reduce_dcmstGetWeight,
      stage2EqState, LTe, LEe, EQe, EPS]
  · norm_num [mstCompRuleOutSpec, mstEqComp3RuleOut, reduce_dcmstGetWeight,
      stage2EqState, LTe, LEe, EQe, EPS]

/-- **C1 (amended).** For every Stage 2 state, `mstCompRuleOut` decides
exactly by: rule out iff `w < c` or the MST has more than two directed edge
entries and `w ≤ c`, unless the tree has three leaves, `w = c` and the 3-leaf
equality sub-check (strict-forbidden SDs on all three leaf pairs) fails; `c`
is the tree cost minus the inner-node prize total in the PC variant. -/
theorem stage2_rule_out_decision (isPc : Bool) (sdF : ℕ → ℕ → ℚ)
    (s : MstCompState) :
    mstCompRuleOut isPc sdF s = mstCompRuleOutSpecAmended isPc sdF s := by
  simp only [mstCompRuleOut, mstCompRuleOutSpecAmended]
  exact stage2_core_eq _ _ _ _ _

/-- The reduction-data stacks (`REDDATA`): the levelbase and component CSR
depots and the vertical and horizontal multi-level SD stores.  Modelled from
the spec where the module sources are absent: a CSR depot (§4.B) is a stack
of CSRs and an MLDISTS store (§4.A) a stack of levels, each level a list of
filled slots `(base, targets)`; the top of every stack is the head. -/
structure RedState where
  msts_levelbase : List CSR
  msts_comp : List CSR
  sds_vertical : List (List (ℕ × List (ℕ × ℚ)))
  sds_horizontal : List (List (ℕ × List (ℕ × ℚ)))

/-- `extreduce_mstLevelRemove`: when the horizontal part of the top level has
been added (equal level counts), pops the top horizontal SD level and the top
levelbase MST; then pops the top vertical SD level.  During a partial push the
horizontal part is missing and only the vertical level is popped. -/
def extreduce_mstLevelRemove (r : RedState) : RedState :=
  if r.sds_horizontal.length = r.sds_vertical.length then
    { r with
        sds_horizontal := r.sds_horizontal.tail
        msts_levelbase := r.msts_levelbase.tail
        sds_vertical := r.sds_vertical.tail }
  else { r with sds_vertical := r.sds_vertical.tail }

/-- `extreduce_mstCompRemove`: pops the top component MST when the depot holds
more than `tree_depth + 1` CSRs. -/
def extreduce_mstCompRemove (tree_depth : ℕ) (r : RedState) : RedState :=
  if (r.msts_comp.length : ℤ) - 1 > (tree_depth : ℤ) then
    { r with msts_comp := r.msts_comp.tail }
  else r

/-- **C9.** `level_remove` pops the top horizontal SD level, the top levelbase
MST and the top vertical SD level (each stack becoming its tail) whenever the
horizontal part is present; after any call the invariant
`n_csrs(levelbase) = n_levels(horizontal)` is preserved; and
`component_remove` pops the component MST of the current depth,
re-establishing `n_csrs(component) = tree_depth + 1`. -/
theorem level_remove_pops_and_keeps_counts :
    (∀ r : RedState, r.sds_horizontal.length = r.sds_vertical.length →
      (extreduce_mstLevelRemove r).sds_horizontal = r.sds_horizontal.tail ∧
        (extreduce_mstLevelRemove r).msts_levelbase = r.msts_levelbase.tail ∧
        (extreduce_mstLevelRemove r).sds_vertical = r.sds_vertical.tail) ∧
    (∀ r : RedState, r.msts_levelbase.length = r.sds_horizontal.length →
      (extreduce_mstLevelRemove r).msts_levelbase.length =
        (extreduce_mstLevelRemove r).sds_horizontal.length) ∧
    (∀ (d : ℕ) (r : RedState),
      r.msts_comp.length = d + 1 ∨ r.msts_comp.length = d + 2 →
      (extreduce_mstCompRemove d r).msts_comp.length = d + 1) := by
  refine ⟨?_, ?_, ?_⟩
  · intro r h
    simp [extreduce_mstLevelRemove, h]
  · intro r h
    unfold extreduce_mstLevelRemove
    by_cases hc : r.sds_horizontal.length = r.sds_vertical.length
    · simp only [hc, if_true]
      rw [List.length_tail, List.length_tail, h]
    · simp only [hc, if_false]
      exact h
  · intro d r h
    unfold extreduce_mstCompRemove
    rcases h with h | h
    · rw [if_neg]
      · exact h
      · rw [h]; push_cast; omega
    · rw [if_pos]
      · rw [List.length_tail, h]; omega
      · rw [h]; push_cast; omega

/-- **C9 witness.** The removal operations on a concrete coherent state: one
level of each store and two component MSTs at depth `0`. -/
theorem level_remove_pops_and_keeps_counts_witness :
    (extreduce_mstLevelRemove
        ⟨[default], [default, default], [[]], [[]]⟩).msts_levelbase = [] ∧
      (extreduce_mstCompRemove 0
        ⟨[default], [default, default], [[]], [[]]⟩).msts_comp.length = 1 := by
  constructor
  · exact (level_remove_pops_and_keeps_counts.1
      ⟨[default], [default, default], [[]], [[]]⟩ rfl).2.1
  · exact level_remove_pops_and_keeps_counts.2.2 0
      ⟨[default], [default, default], [[]], [[]]⟩ (Or.inr rfl)

/-- `extLeafFindPos`: position of a vertex in the tree leaves array. -/
def extLeafFindPos (leaves : List ℕ) (v : ℕ) : ℕ := leaves.indexOf v

/-- `baseMstGetOrderedParentNodes`: the heads of the out-edges of the parent
component, sorted (`SCIPsortIntInt`) by their position in the tree leaves
array. -/
def baseMstGetOrderedParentNodes (g : STPGraph) (leaves : List ℕ)
    (parentEdges : List ℕ) : List ℕ :=
  List.insertionSort
    (fun a b => extLeafFindPos leaves a ≤ extLeafFindPos leaves b)
    (parentEdges.map g.head)

/-- The sibling loop of `baseMstGetAdjcosts`: horizontal SDs from `comp_vert`
to its left siblings, skipping the extension node, with `FARAWAY` at the
vertex itself where the loop breaks. -/
def adjcostsSiblingPart (horiz : ℕ → ℕ → ℚ) (comp_vert comp_extnode : ℕ) :
    List ℕ → List ℚ
  | [] => []
  | s :: rest =>
    if s = comp_vert then [FARAWAY]
    else if s = comp_extnode then
      adjcostsSiblingPart horiz comp_vert comp_extnode rest
    else horiz comp_vert s :: adjcostsSiblingPart horiz comp_vert comp_extnode rest

/-- `baseMstGetAdjcosts`: the adjacency-cost row for `comp_vert`: its stored
vertical SDs to the parent MST nodes followed by the horizontal SDs to its
left siblings. -/
def baseMstGetAdjcosts (vert : List ℚ) (horiz : ℕ → ℕ → ℚ)
    (comp_nodes : List ℕ) (comp_vert comp_extnode : ℕ) : List ℚ :=
  vert ++ adjcostsSiblingPart horiz comp_vert comp_extnode comp_nodes

/-- `baseMstBuildNew`: builds the new levelbase MST from the parent one by
adding every ordered parent-component node other than the extension node;
`mstExtend`'s kernel calls (`reduce_dcmstAddNode`, then
`reduce_dcmstAddNodeInplace` on the running output) are modelled by the
abstract DCMST operation `addNode` (§4.C), whose source is not part of this
snapshot; when every node is skipped the parent MST is copied unchanged. -/
def baseMstBuildNew (addNode : CSR → List ℚ → CSR) (vert : ℕ → List ℚ)
    (horiz : ℕ → ℕ → ℚ) (extnode : ℕ) (mst_parent : CSR)
    (ordered : List ℕ) : CSR :=
  ordered.foldl
    (fun m v =>
      if v ≠ extnode then
        addNode m (baseMstGetAdjcosts (vert v) horiz ordered v extnode)
      else m)
    mst_parent

/-- `extreduce_mstLevelClose`: closes the top level by pushing the new
levelbase MST on the levelbase depot: a one-node MST when extending from the
tree root (`mstLevelBuildBaseMstRoot`), otherwise the parent levelbase MST
extended by the parent component (`mstLevelBuildBaseMst`). -/
def extreduce_mstLevelClose (g : STPGraph) (addNode : CSR → List ℚ → CSR)
    (vert : ℕ → List ℚ) (horiz : ℕ → ℕ → ℚ) (isAtInitialComp : Bool)
    (leaves parentEdges : List ℕ) (extnode : ℕ) (r : RedState) : RedState :=
  if isAtInitialComp then
    { r with msts_levelbase := reduce_dcmstGet1NodeMst :: r.msts_levelbase }
  else
    let mst_parent := r.msts_levelbase.headD default
    let ordered := baseMstGetOrderedParentNodes g leaves parentEdges
    { r with
        msts_levelbase :=
          baseMstBuildNew addNode vert horiz extnode mst_parent ordered ::
            r.msts_levelbase }

theorem foldl_skip_eq_filter_foldl {α β : Type} [DecidableEq β]
    (f : α → β → α) (ext : β) :
    ∀ (l : List β) (init : α),
      l.foldl (fun m v => if v ≠ ext then f m v else m) init =
        (l.filter (fun v => v ≠ ext)).foldl f init := by
  intro l
  induction l with
  | nil => intro init; rfl
  | cons v rest ih =>
    intro init
    by_cases hv : v = ext
    · have h1 : (if v ≠ ext then f init v else init) = init := by simp [hv]
      have h2 : (v :: rest).filter (fun v => v ≠ ext) =
          rest.filter (fun v => v ≠ ext) := by
        simp [List.filter_cons, hv]
      rw [List.foldl_cons, h1, h2, ih]
    · have h1 : (if v ≠ ext then f init v else init) = f init v := by simp [hv]
      have h2 : (v :: rest).filter (fun v => v ≠ ext) =
          v :: rest.filter (fun v => v ≠ ext) := by
        simp [List.filter_cons, hv]
      rw [List.foldl_cons, h1, h2, List.foldl_cons, ih]

/-- **C5.** `level_close(ext_node)` pushes onto the levelbase depot: a
one-node MST when extending from the tree root; otherwise the MST obtained
from the previous levelbase MST by adding, via the DCMST kernel, exactly the
parent-component nodes other than `ext_node`, taken in the order of their
positions in the leaves array (the processed node list is a permutation of
the parent-component heads with nondecreasing leaf positions). -/
theorem level_close_pushes_levelbase_mst (g : STPGraph)
    (addNode : CSR → List ℚ → CSR) (vert : ℕ → List ℚ) (horiz : ℕ → ℕ → ℚ)
    (leaves parentEdges : List ℕ) (extnode : ℕ) (r : RedState) :
    (extreduce_mstLevelClose g addNode vert horiz true leaves parentEdges
        extnode r).msts_levelbase =
      reduce_dcmstGet1NodeMst :: r.msts_levelbase ∧
    (extreduce_mstLevelClose g addNode vert horiz false leaves parentEdges
        extnode r).msts_levelbase =
      ((baseMstGetOrderedParentNodes g leaves parentEdges).filter
          (fun v => v ≠ extnode)).foldl
        (fun m v =>
          addNode m (baseMstGetAdjcosts (vert v) horiz
            (baseMstGetOrderedParentNodes g leaves parentEdges) v extnode))
        (r.msts_levelbase.headD default) :: r.msts_levelbase ∧
    (baseMstGetOrderedParentNodes g leaves parentEdges).Perm
      (parentEdges.map g.head) ∧
    ((baseMstGetOrderedParentNodes g leaves parentEdges).map
        (extLeafFindPos leaves)).Sorted (· ≤ ·) := by
  refine ⟨rfl, ?_, ?_, ?_⟩
  · simp only [extreduce_mstLevelClose, Bool.false_eq_true, if_false,
      baseMstBuildNew]
    rw [foldl_skip_eq_filter_foldl]
  · exact List.perm_insertionSort _ _
  · haveI : IsTotal ℕ
        (fun a b => extLeafFindPos leaves a ≤ extLeafFindPos leaves b) :=
      ⟨fun a b => Nat.le_total _ _⟩
    haveI : IsTrans ℕ
        (fun a b => extLeafFindPos leaves a ≤ extLeafFindPos leaves b) :=
      ⟨fun _ _ _ hab hbc => le_trans hab hbc⟩
    have hs := List.sorted_insertionSort
      (fun a b => extLeafFindPos leaves a ≤ extLeafFindPos leaves b)
      (parentEdges.map g.head)
    exact List.Pairwise.map _ (fun _ _ h => h) hs

/-- `extGetSdPcUpdate`: prize-collecting refinement of a special distance via
the `pcSdToNode` mark array: a marked alternative replaces the oracle value
when it is smaller or the oracle value is unknown. -/
def extGetSdPcUpdate (pcSdToNode : ℕ → ℚ) (vertex2 : ℕ) (sd : ℚ) : ℚ :=
  let sdpc := pcSdToNode vertex2
  if sdpc > -(1/2) ∧ (sdpc < sd ∨ sd < -(1/2)) then sdpc else sd

/-- `extGetSdDouble` (and `extGetSd`, which with `EXT_DOUBLESD_ALWAYS` defined
is the same function): query the distance-data oracle `sdOracle` (standing for
`extreduce_distDataGetSdDouble`, whose module is not part of this snapshot,
§6) and apply the PC update when the PC mark array is active. -/
def extGetSdDouble (sdOracle : ℕ → ℕ → ℚ) (isPc : Bool)
    (pcSdToNode : ℕ → ℚ) (v1 v2 : ℕ) : ℚ :=
  let sd := sdOracle v1 v2
  if isPc then extGetSdPcUpdate pcSdToNode v2 sd else sd

/-- The loop of `mstLevelLeafSetVerticalSDs`: for each current leaf, store the
special distance from the new neighbor (`-1` unknown stored as `FARAWAY`) and
stop with a rule-out as soon as the extension-edge bottleneck test fires. -/
def setVerticalSDsAux (g : STPGraph) (t : ExtTree) (b : ℕ → ℚ)
    (sdFn : ℕ → ℕ → ℚ) (sdEqF : ℚ → ℕ → ℕ → ℕ → ℚ) (e2n : ℕ) :
    List ℕ → List ℚ × Bool
  | [] => ([], false)
  | leaf :: rest =>
    let specialDist := sdFn (g.head e2n) leaf
    let stored := if specialDist ≥ -(1/2) then specialDist else FARAWAY
    if bottleneckWithExtedgeIsDominated g t b sdEqF e2n (g.tail e2n) leaf
        specialDist then
      ([stored], true)
    else
      let res := setVerticalSDsAux g t b sdFn sdEqF e2n rest
      (stored :: res.1, res.2)

/-- `mstLevelLeafSetVerticalSDs`: computes and stores the SDs from the head of
the extension edge to all current leaves, checking each against the
per-leaf bottleneck tests; returns the written slot contents and the
early-rule-out flag. -/
def mstLevelLeafSetVerticalSDs (g : STPGraph) (t : ExtTree) (b : ℕ → ℚ)
    (sdFn : ℕ → ℕ → ℚ) (sdEqF : ℚ → ℕ → ℕ → ℕ → ℚ) (e2n : ℕ)
    (leaves : List ℕ) : List ℚ × Bool :=
  setVerticalSDsAux g t b sdFn sdEqF e2n leaves

/-- `mstLevelLeafTryExtMst`: trial-extends the top component MST with the
candidate's adjacency costs via the DCMST ext-weight computation
(`reduce_dcmstGetExtWeight`, modelled abstractly by the kernel oracle
`getExtWeight`, §4.C, whose source is not part of this snapshot) and rules
out iff the extended weight strictly undercuts the tree cost, minus the
inner-node prize total in the PC variant. -/
def mstLevelLeafTryExtMst (getExtWeight : CSR → List ℚ → ℚ) (topmst : CSR)
    (adjcosts : List ℚ) (isPc : Bool) (innerPrize tree_cost : ℚ) : Bool :=
  let c := if isPc then tree_cost - innerPrize else tree_cost
  LTe (getExtWeight topmst adjcosts) c

/-- `bottleneckCheckNonLeaves`: bottleneck tests from the new neighbor against
all inner nodes of the tree. -/
def bottleneckCheckNonLeaves (g : STPGraph) (t : ExtTree) (b : ℕ → ℚ)
    (sdFn : ℕ → ℕ → ℚ) (sdEqF : ℚ → ℕ → ℕ → ℕ → ℚ) (e2n : ℕ)
    (innerNodes : List ℕ) : Bool :=
  innerNodes.any fun node =>
    bottleneckWithExtedgeIsDominated g t b sdEqF e2n (g.tail e2n) node
      (sdFn (g.head e2n) node)

/-- `bottleneckCheckNonLeaves_pc`: bottleneck tests against the non-leaf tree
vertices previously marked by the PC cache (candidates of tree degree at most
one are skipped). -/
def bottleneckCheckNonLeaves_pc (g : STPGraph) (t : ExtTree) (b : ℕ → ℚ)
    (sdFn : ℕ → ℕ → ℚ) (sdEqF : ℚ → ℕ → ℕ → ℕ → ℚ) (e2n : ℕ)
    (pcSdCands : List ℕ) : Bool :=
  pcSdCands.any fun cand =>
    if t.deg cand ≤ 1 then false
    else
      bottleneckWithExtedgeIsDominated g t b sdEqF e2n (g.tail e2n) cand
        (sdFn (g.head e2n) cand)

/-- `extreduce_mstLevelVerticalAddLeaf`: marks the root path from the neighbor
base (`mstLevelLeafInit`), computes and stores the vertical SDs with per-leaf
bottleneck tests, then — if not yet ruled out — trial-extends the component
MST, then runs the PC non-leaf tests (PC mode only) and the inner-node tests;
returns the rule-out flag (the final unmarking of `mstLevelLeafExit` does not
affect it). -/
def extreduce_mstLevelVerticalAddLeaf (g : STPGraph) (t : ExtTree)
    (sdOracle : ℕ → ℕ → ℚ) (sdEqF : ℚ → ℕ → ℕ → ℕ → ℚ)
    (pcSdToNode : ℕ → ℚ) (getExtWeight : CSR → List ℚ → ℚ)
    (leaves innerNodes pcSdCands : List ℕ) (topmst : CSR)
    (innerPrize tree_cost : ℚ) (b0 : ℕ → ℚ) (e2n : ℕ) : Bool :=
  let b := bottleneckMarkRootPath g t (g.tail e2n) b0
  let sdFn := extGetSdDouble sdOracle g.isPc pcSdToNode
  let vres := mstLevelLeafSetVerticalSDs g t b sdFn sdEqF e2n leaves
  if vres.2 then true
  else if mstLevelLeafTryExtMst getExtWeight topmst vres.1 g.isPc innerPrize
      tree_cost then true
  else if g.isPc ∧ bottleneckCheckNonLeaves_pc g t b sdFn sdEqF e2n pcSdCands
      then true
  else bottleneckCheckNonLeaves g t b sdFn sdEqF e2n innerNodes

/-- **C6.** The trial MST extension of `vertical_add_leaf` rules out exactly
when the extended MST weight strictly undercuts the tree cost (minus the
inner-node prize total in the PC variant); and whenever the candidate
neighbor survives the per-leaf bottleneck tests, `vertical_add_leaf` consults
exactly this trial extension (on the freshly written adjacency costs),
followed by the PC and inner-node bottleneck checks. -/
theorem vertical_add_leaf_trial_ext :
    (∀ (getExtWeight : CSR → List ℚ → ℚ) (topmst : CSR) (adjcosts : List ℚ)
        (isPc : Bool) (innerPrize tree_cost : ℚ),
      mstLevelLeafTryExtMst getExtWeight topmst adjcosts isPc innerPrize
          tree_cost = true ↔
        LTe (getExtWeight topmst adjcosts)
          (if isPc then tree_cost - innerPrize else tree_cost) = true) ∧
    (∀ (g : STPGraph) (t : ExtTree) (sdOracle : ℕ → ℕ → ℚ)
        (sdEqF : ℚ → ℕ → ℕ → ℕ → ℚ) (pcSdToNode : ℕ → ℚ)
        (getExtWeight : CSR → List ℚ → ℚ)
        (leaves innerNodes pcSdCands : List ℕ) (topmst : CSR)
        (innerPrize tree_cost : ℚ) (b0 : ℕ → ℚ) (e2n : ℕ),
      (mstLevelLeafSetVerticalSDs g t
          (bottleneckMarkRootPath g t (g.tail e2n) b0)
          (extGetSdDouble sdOracle g.isPc pcSdToNode) sdEqF e2n leaves).2
        = false →
      extreduce_mstLevelVerticalAddLeaf g t sdOracle sdEqF pcSdToNode
          getExtWeight leaves innerNodes pcSdCands topmst innerPrize tree_cost
          b0 e2n =
        (mstLevelLeafTryExtMst getExtWeight topmst
            (mstLevelLeafSetVerticalSDs g t
              (bottleneckMarkRootPath g t (g.tail e2n) b0)
              (extGetSdDouble sdOracle g.isPc pcSdToNode) sdEqF e2n leaves).1
            g.isPc innerPrize tree_cost ||
          (g.isPc && bottleneckCheckNonLeaves_pc g t
            (bottleneckMarkRootPath g t (g.tail e2n) b0)
            (extGetSdDouble sdOracle g.isPc pcSdToNode) sdEqF e2n pcSdCands) ||
          bottleneckCheckNonLeaves g t
            (bottleneckMarkRootPath g t (g.tail e2n) b0)
            (extGetSdDouble sdOracle g.isPc pcSdToNode) sdEqF e2n
            innerNodes)) := by
  constructor
  · intro getExtWeight topmst adjcosts isPc innerPrize tree_cost
    unfold mstLevelLeafTryExtMst
    exact Iff.rfl
  · intro g t sdOracle sdEqF pcSdToNode getExtWeight leaves innerNodes
      pcSdCands topmst innerPrize tree_cost b0 e2n hvert
    unfold extreduce_mstLevelVerticalAddLeaf
    dsimp only
    rw [hvert]
    simp only [Bool.false_eq_true, if_false]
    cases htry : mstLevelLeafTryExtMst getExtWeight topmst
        (mstLevelLeafSetVerticalSDs g t
          (bottleneckMarkRootPath g t (g.tail e2n) b0)
          (extGetSdDouble sdOracle g.isPc pcSdToNode) sdEqF e2n leaves).1
        g.isPc innerPrize tree_cost with
    | true => simp
    | false =>
      simp only [Bool.false_eq_true, if_false, Bool.false_or]
      cases hpc : g.isPc with
      | true =>
        cases hcand : bottleneckCheckNonLeaves_pc g t
            (bottleneckMarkRootPath g t (g.tail e2n) b0)
            (extGetSdDouble sdOracle g.isPc pcSdToNode) sdEqF e2n pcSdCands with
        | true => simp [hpc, hcand]
        | false => simp [hpc, hcand]
      | false => simp [hpc]

/-- **C6 witness.** The composition evaluated on a concrete state with no
leaves, no inner nodes and extension weight `0` against tree cost `10`: the
candidate trivially survives the bottleneck stage and the trial MST extension
rules out (`0 < 10`). -/
theorem vertical_add_leaf_trial_ext_witness :
    extreduce_mstLevelVerticalAddLeaf unitCostGraph pcPathTree
        (fun _ _ => -1) (fun _ _ _ _ => -1) (fun _ => -1) (fun _ _ => 0)
        [] [] [] default 0 10 (fun _ => -1) 0 = true := by
  rw [vertical_add_leaf_trial_ext.2 unitCostGraph pcPathTree (fun _ _ => -1)
    (fun _ _ _ _ => -1) (fun _ => -1) (fun _ _ => 0) [] [] [] default 0 10
    (fun _ => -1) 0 rfl]
  norm_num [mstLevelLeafTryExtMst, bottleneckCheckNonLeaves, unitCostGraph,
    LTe, EPS]

/-- Modelled from the spec: the read accessor `top_target_dist(base, target)`
of the multi-level distance store (§4.A), whose source is not part of this
snapshot: within a sealed level slots are addressable by their base vertex,
and `FARAWAY` is returned for self-pairs and pairs stored as unknown. -/
def mldistsTargetDist (slots : List (ℕ × List (ℕ × ℚ))) (base target : ℕ) : ℚ :=
  match slots.find? (fun sl => sl.1 = base) with
  | none => FARAWAY
  | some sl =>
    match sl.2.find? (fun p => p.1 = target) with
    | none => FARAWAY
    | some p => p.2

/-- The slot loop of `extreduce_mstLevelHorizontalAdd`: the `i`-th extension
head gets a slot whose left-sibling entries are read back from the slots
already built and whose right-sibling entries are freshly computed from the
oracle, with `-1` unknown stored as `FARAWAY`. -/
def horizontalAddAux (sdFn : ℕ → ℕ → ℚ) (heads : List ℕ) :
    ℕ → ℕ → List (ℕ × List (ℕ × ℚ)) → List (ℕ × List (ℕ × ℚ))
  | 0, _, built => built
  | fuel + 1, i, built =>
    if i < heads.length then
      let h := heads.getD i 0
      let left := (heads.take i).map fun sib =>
        (sib, mldistsTargetDist built sib h)
      let right := (heads.drop (i + 1)).map fun sib =>
        let sd := sdFn h sib
        (sib, if sd ≥ -(1/2) then sd else FARAWAY)
      horizontalAddAux sdFn heads fuel (i + 1) (built ++ [(h, left ++ right)])
    else built

/-- `extreduce_mstLevelHorizontalAdd`: computes and stores the horizontal SD
slots for the heads of the extension edges, left to right. -/
def extreduce_mstLevelHorizontalAdd (sdFn : ℕ → ℕ → ℚ) (heads : List ℕ) :
    List (ℕ × List (ℕ × ℚ)) :=
  horizontalAddAux sdFn heads heads.length 0 []

/-- The distance oracle contract of §6: every returned SD is `-1` (unknown)
or lies in `[0, FARAWAY]`. -/
def SdOracleInRange (sdFn : ℕ → ℕ → ℚ) : Prop :=
  ∀ u v, sdFn u v = -1 ∨ (0 ≤ sdFn u v ∧ sdFn u v ≤ FARAWAY)

/-- All `(id, dist)` entries of the given slots lie in `[0, FARAWAY]`. -/
def SlotsInRange (slots : List (ℕ × List (ℕ × ℚ))) : Prop :=
  ∀ sl ∈ slots, ∀ p ∈ sl.2, 0 ≤ p.2 ∧ p.2 ≤ FARAWAY

theorem FARAWAY_nonneg : (0 : ℚ) ≤ FARAWAY := by norm_num [FARAWAY]

theorem stored_value_in_range (sdFn : ℕ → ℕ → ℚ) (h : SdOracleInRange sdFn)
    (u v : ℕ) :
    0 ≤ (if sdFn u v ≥ -(1/2) then sdFn u v else FARAWAY) ∧
      (if sdFn u v ≥ -(1/2) then sdFn u v else FARAWAY) ≤ FARAWAY := by
  rcases h u v with h1 | h1
  · rw [if_neg (by rw [h1]; norm_num)]
    exact ⟨FARAWAY_nonneg, le_refl _⟩
  · rw [if_pos (by linarith [h1.1])]
    exact h1

theorem mldistsTargetDist_in_range (slots : List (ℕ × List (ℕ × ℚ)))
    (h : SlotsInRange slots) (base target : ℕ) :
    0 ≤ mldistsTargetDist slots base target ∧
      mldistsTargetDist slots base target ≤ FARAWAY := by
  unfold mldistsTargetDist
  cases hsl : slots.find? (fun sl => sl.1 = base) with
  | none => exact ⟨FARAWAY_nonneg, le_refl _⟩
  | some sl =>
    dsimp only
    cases hp : sl.2.find? (fun p => p.1 = target) with
    | none => exact ⟨FARAWAY_nonneg, le_refl _⟩
    | some p =>
      exact h sl (List.mem_of_find?_eq_some hsl) p
        (List.mem_of_find?_eq_some hp)

theorem setVerticalSDs_writes_in_range (g : STPGraph) (t : ExtTree)
    (b : ℕ → ℚ) (sdFn : ℕ → ℕ → ℚ) (sdEqF : ℚ → ℕ → ℕ → ℕ → ℚ) (e2n : ℕ)
    (h : SdOracleInRange sdFn) :
    ∀ (leaves : List ℕ),
      ∀ x ∈ (setVerticalSDsAux g t b sdFn sdEqF e2n leaves).1,
        0 ≤ x ∧ x ≤ FARAWAY := by
  intro leaves
  induction leaves with
  | nil => intro x hx; cases hx
  | cons leaf rest ih =>
    intro x hx
    simp only [setVerticalSDsAux] at hx
    by_cases hdom : bottleneckWithExtedgeIsDominated g t b sdEqF e2n
        (g.tail e2n) leaf (sdFn (g.head e2n) leaf) = true
    · simp only [hdom, if_true, List.mem_singleton] at hx
      subst hx
      exact stored_value_in_range sdFn h _ _
    · rw [if_neg hdom] at hx
      rcases List.mem_cons.mp hx with hx | hx
      · subst hx
        exact stored_value_in_range sdFn h _ _
      · exact ih x hx

theorem horizontalAddAux_in_range (sdFn : ℕ → ℕ → ℚ) (heads : List ℕ)
    (h : SdOracleInRange sdFn) :
    ∀ (fuel i : ℕ) (built : List (ℕ × List (ℕ × ℚ))),
      SlotsInRange built →
      SlotsInRange (horizontalAddAux sdFn heads fuel i built) := by
  intro fuel
  induction fuel with
  | zero => intro i built hb; exact hb
  | succ n ih =>
    intro i built hb
    simp only [horizontalAddAux]
    by_cases hi : i < heads.length
    · rw [if_pos hi]
      refine ih (i + 1) _ ?_
      intro sl hsl p hp
      rcases List.mem_append.mp hsl with hsl | hsl
      · exact hb sl hsl p hp
      · rw [List.mem_singleton.mp hsl] at hp
        rcases List.mem_append.mp hp with hp | hp
        · rcases List.mem_map.mp hp with ⟨sib, _, hpe⟩
          rw [← hpe]
          exact mldistsTargetDist_in_range built hb sib (heads.getD i 0)
        · rcases List.mem_map.mp hp with ⟨sib, _, hpe⟩
          rw [← hpe]
          exact stored_value_in_range sdFn h _ _
    · rw [if_neg hi]
      exact hb

/-- **C8 (amended).** Every SD written into the vertical or horizontal
multi-level distance store lies in the closed interval `[0, FARAWAY]`,
assuming the distance oracle honors its §6 contract
(`sd ∈ [0, FARAWAY] ∪ {-1}`): known SDs are stored as returned and the
unknown `-1` is stored as the sentinel `FARAWAY` (not as `-1`). -/
theorem stored_sds_in_range :
    (∀ (g : STPGraph) (t : ExtTree) (b : ℕ → ℚ) (sdFn : ℕ → ℕ → ℚ)
        (sdEqF : ℚ → ℕ → ℕ → ℕ → ℚ) (e2n : ℕ) (leaves : List ℕ),
      SdOracleInRange sdFn →
      ∀ x ∈ (mstLevelLeafSetVerticalSDs g t b sdFn sdEqF e2n leaves).1,
        0 ≤ x ∧ x ≤ FARAWAY) ∧
    (∀ (sdFn : ℕ → ℕ → ℚ) (heads : List ℕ),
      SdOracleInRange sdFn →
      ∀ sl ∈ extreduce_mstLevelHorizontalAdd sdFn heads, ∀ p ∈ sl.2,
        0 ≤ p.2 ∧ p.2 ≤ FARAWAY) := by
  constructor
  · intro g t b sdFn sdEqF e2n leaves h x hx
    exact setVerticalSDs_writes_in_range g t b sdFn sdEqF e2n h leaves x hx
  · intro sdFn heads h sl hsl p hp
    exact horizontalAddAux_in_range sdFn heads h heads.length 0 []
      (fun sl hsl => by cases hsl) sl hsl p hp

/-- **C8 counterexample.** An unknown special distance (oracle `-1`) is stored
in the vertical store as `FARAWAY`, which is neither the claimed `-1` encoding
nor inside the half-open interval `[0, FARAWAY)`. -/
theorem unknown_sd_stored_as_faraway :
    (mstLevelLeafSetVerticalSDs unitCostGraph pcPathTree (fun _ => -1)
        (fun _ _ => -1) (fun _ _ _ _ => -1) 0 [5]).1 = [FARAWAY] ∧
      ¬ (FARAWAY = -1 ∨ (0 ≤ FARAWAY ∧ FARAWAY < FARAWAY)) := by
  constructor
  · norm_num [mstLevelLeafSetVerticalSDs, setVerticalSDsAux,
      bottleneckWithExtedgeIsDominated, sdIsNonTrivial]
  · norm_num [FARAWAY]

/-- **C8 witness.** The amended range statement on the concrete all-unknown
oracle, at the stored entry of the single-leaf slot. -/
theorem stored_sds_in_range_witness :
    ∀ x ∈ (mstLevelLeafSetVerticalSDs unitCostGraph pcPathTree (fun _ => -1)
        (fun _ _ => -1) (fun _ _ _ _ => -1) 0 [5]).1,
      0 ≤ x ∧ x ≤ FARAWAY :=
  stored_sds_in_range.1 unitCostGraph pcPathTree (fun _ => -1)
    (fun _ _ => -1) (fun _ _ _ _ => -1) 0 [5] (fun _ _ => Or.inl rfl)

end ExtMst
